import Mathlib

/-
Verification of the MCP stdio server (server.py) against its design spec.

The development shallowly embeds the parts of server.py that the spec's
claims are about:
  * the tolerant Content-Length frame decoder `read_packet` and the frame
    writer inside `_stdio_server` (server.py lines 822-899), modelled over
    byte lists (`List Nat`, each element a byte value);
  * the lazy embedding-model accessor `_get_embed_model` (lines 117-124);
  * the startup Redis probe `_check_redis_connection` (lines 81-93) and the
    store-gated tools `set_memory` / `get_memory` (lines 438-451).
-/

namespace MCPServer

/-! ## Byte-stream primitives

Python's `a_stdin` wraps `sys.stdin.buffer` (an `io.BufferedReader`).
`readline()` returns bytes up to and including the first newline, or the
remaining bytes at end of stream (empty bytes exactly when the stream is
exhausted).  `read(n)` returns up to `n` bytes for `n ≥ 0`, the whole rest
of the stream for `n = -1`, and raises `ValueError` for `n < -1`
("read length must be non-negative or -1"). -/

/-- Python `file.readline()` on a byte list: the line (including the
terminating newline byte 10, when present) and the remaining stream. -/
def readline : List Nat → List Nat × List Nat
  | [] => ([], [])
  | b :: rest =>
    if b = 10 then ([10], rest)
    else
      let p := readline rest
      (b :: p.1, p.2)

/-- Line-ending normalisation from `read_packet`: drop a trailing
`\r\n` (13,10), else a trailing `\n` (10). -/
def stripCRLF (l : List Nat) : List Nat :=
  if l.reverse.take 2 = [10, 13] then l.dropLast.dropLast
  else if l.reverse.take 1 = [10] then l.dropLast
  else l

/-- Bytes regarded as whitespace by Python `str.strip()` after an ASCII
decode (space, `\t\n\v\f\r`, and the separator controls 28-31). -/
def isSpaceByte (b : Nat) : Bool :=
  b = 32 || (9 ≤ b && b ≤ 13) || (28 ≤ b && b ≤ 31)

/-- Python `str.strip()` on decoded bytes. -/
def pyStrip (l : List Nat) : List Nat :=
  ((l.dropWhile isSpaceByte).reverse.dropWhile isSpaceByte).reverse

/-- Python `str.lower()` restricted to ASCII. -/
def pyLower (l : List Nat) : List Nat :=
  l.map (fun b => if 65 ≤ b && b ≤ 90 then b + 32 else b)

/-- Python `bytes.decode("ascii", "ignore")`: non-ASCII bytes are dropped. -/
def asciiIgnore (l : List Nat) : List Nat :=
  l.filter (fun b => b < 128)

/-- Python `line.split(b":", 1)` preceded by the `b":" in line` test:
`some (before, after)` at the first colon (byte 58), else `none`. -/
def splitColon : List Nat → Option (List Nat × List Nat)
  | [] => none
  | b :: rest =>
    if b = 58 then some ([], rest)
    else (splitColon rest).map (fun p => (b :: p.1, p.2))

/-- Header-key processing from `read_packet`:
`k.decode("ascii", "ignore").strip().lower()`. -/
def procKey (k : List Nat) : List Nat :=
  pyLower (pyStrip (asciiIgnore k))

/-- Header-value processing from `read_packet`:
`v.decode("ascii", "ignore").strip()`. -/
def procVal (v : List Nat) : List Nat :=
  pyStrip (asciiIgnore v)

/-- Python dict assignment `headers[k] = v` on an association list:
replace the existing binding for `k`, else append. -/
def hset : List (List Nat × List Nat) → List Nat → List Nat → List (List Nat × List Nat)
  | [], k, v => [(k, v)]
  | (k', v') :: t, k, v =>
    if k' = k then (k, v) :: t else (k', v') :: hset t k v

/-- Python `headers.get(k)` on an association list. -/
def hget : List (List Nat × List Nat) → List Nat → Option (List Nat)
  | [], _ => none
  | (k', v') :: t, k => if k' = k then some v' else hget t k

/-- The processed bytes of the key `"content-length"`. -/
def clKeyBytes : List Nat :=
  [99, 111, 110, 116, 101, 110, 116, 45, 108, 101, 110, 103, 116, 104]

/-- ASCII decimal digit test. -/
def isDigitByte (b : Nat) : Bool :=
  48 ≤ b && b ≤ 57

/-- Digits (with Python 3.6 underscore grouping) after the first digit of an
`int()` literal; accumulates the value left to right. -/
def pyDigits : List Nat → Nat → Option Nat
  | [], acc => some acc
  | b :: rest, acc =>
    if isDigitByte b then pyDigits rest (acc * 10 + (b - 48))
    else if b = 95 then
      match rest with
      | c :: _ => if isDigitByte c then pyDigits rest acc else none
      | [] => none
    else none

/-- Unsigned part of Python `int()`: requires a leading digit. -/
def pyNat : List Nat → Option Nat
  | [] => none
  | b :: rest => if isDigitByte b then pyDigits rest (b - 48) else none

/-- Python `int(s)` on an already-stripped ASCII string: an optional single
sign followed by digits.  Note that it accepts negative literals such as
`-5`; the surrounding `except ValueError` in `read_packet` therefore does
NOT fire on them. -/
def pyInt (s : List Nat) : Option Int :=
  match s with
  | [] => none
  | b :: rest =>
    if b = 43 then (pyNat rest).map (fun n => (n : Int))
    else if b = 45 then (pyNat rest).map (fun n => -(n : Int))
    else (pyNat s).map (fun n => (n : Int))

/-- Result of one `read_packet` call: `eof` models `return None`,
`err` models an exception escaping `read_packet` (caught only by the
generic handler in `reader`, which then terminates the loop), and
`packet body rest` models returning `body` with `rest` left unread. -/
inductive ReadResult where
  | eof : ReadResult
  | err : ReadResult
  | packet (body rest : List Nat) : ReadResult
deriving DecidableEq

/-- The tail of `read_packet` once a `length` has been parsed:
`body = a_stdin.read(length)` followed by
`if not body or len(body) < length: return None` and `return body`.
`read` on a `BufferedReader` raises `ValueError` for a count below -1 and
reads to end of stream for exactly -1. -/
def readBody (len : Int) (rest : List Nat) : ReadResult :=
  if len < -1 then .err
  else if len = -1 then
    if rest = [] then .eof else .packet rest []
  else if rest.take len.toNat = [] ∨ (rest.take len.toNat).length < len.toNat then .eof
  else .packet (rest.take len.toNat) (rest.drop len.toNat)

/-- Fuelled embedding of the `while True` loops of `read_packet`
(server.py lines 822-868).  `hs` is the header dict accumulated for the
current block; one unit of fuel is spent per line read, so any fuel above
the stream length is enough (`readPacketGo_fuel`). -/
def readPacketGo : Nat → List Nat → List (List Nat × List Nat) → Option ReadResult
  | 0, _, _ => none
  | fuel + 1, s, hs =>
    if (readline s).1 = [] then some .eof
    else if stripCRLF (readline s).1 = [] then
      match hget hs clKeyBytes with
      | none => readPacketGo fuel (readline s).2 []
      | some v =>
        if v = [] then readPacketGo fuel (readline s).2 []
        else
          match pyInt v with
          | none => readPacketGo fuel (readline s).2 []
          | some len => some (readBody len (readline s).2)
    else
      match splitColon (stripCRLF (readline s).1) with
      | some kv => readPacketGo fuel (readline s).2 (hset hs (procKey kv.1) (procVal kv.2))
      | none => readPacketGo fuel (readline s).2 hs

/-- One call of `read_packet` on the byte stream `s`. -/
def readPacket (s : List Nat) : Option ReadResult :=
  readPacketGo (s.length + 1) s []

/-- Decimal digit bytes of `n`, most significant first (fuelled). -/
def natDigitsF : Nat → Nat → List Nat
  | 0, _ => []
  | fuel + 1, n =>
    if n < 10 then [48 + n]
    else natDigitsF fuel (n / 10) ++ [48 + n % 10]

/-- Decimal digit bytes of `n`, as produced by Python `str(n)` for a
non-negative `n` (used by the writer's f-string). -/
def natDigits (n : Nat) : List Nat :=
  natDigitsF (n + 1) n

/-- The bytes of `"Content-Length: "` (including the colon and space). -/
def clHeadBytes : List Nat :=
  [67, 111, 110, 116, 101, 110, 116, 45, 76, 101, 110, 103, 116, 104, 58, 32]

/-- The raw bytes of the header key `"Content-Length"` as the writer emits
it (before the colon). -/
def clKeyRaw : List Nat :=
  [67, 111, 110, 116, 101, 110, 116, 45, 76, 101, 110, 103, 116, 104]

/-- The frame emitted by `writer` (server.py lines 888-895) for a payload:
`f"Content-Length: {len(payload)}\r\n\r\n".encode("ascii")` followed by
the payload bytes, written as one atomic write. -/
def encodeFrame (payload : List Nat) : List Nat :=
  clHeadBytes ++ natDigits payload.length ++ [13, 10, 13, 10] ++ payload

/-- A header block with an explicit raw value `v` in place of the length
digits, as a peer might send it: `"Content-Length: " ++ v ++ "\r\n\r\n"`. -/
def mkRawHeader (v : List Nat) : List Nat :=
  clHeadBytes ++ v ++ [13, 10, 13, 10]

/-- Fuelled embedding of the `read_packet` iteration inside `reader`
(server.py lines 870-886): collect payloads until `read_packet` stops
yielding one (None on end of stream, or an escaping exception).  The JSON
parse that `reader` applies to each payload is outside the framing layer. -/
def decodeLoop : Nat → List Nat → List (List Nat)
  | 0, _ => []
  | fuel + 1, s =>
    match readPacket s with
    | some (.packet b rest) => b :: decodeLoop fuel rest
    | _ => []

/-- All payloads the reader loop delivers from the byte stream `s`. -/
def decodeStream (s : List Nat) : List (List Nat) :=
  decodeLoop (s.length + 1) s

/-- A raw line `body ++ [10]` is garbage for the decoder when it does not
contribute a `content-length` header: either it has no colon, or its
processed key differs from `content-length`.  (Blank lines are allowed:
they merely close a block that is then discarded.) -/
def lineOk (body : List Nat) : Bool :=
  match splitColon (stripCRLF (body ++ [10])) with
  | some kv => !(procKey kv.1 == clKeyBytes)
  | none => true

/-- Serialise garbage line bodies, each terminated by a newline byte. -/
def garbageBytes (bodies : List (List Nat)) : List Nat :=
  (bodies.map (fun b => b ++ [10])).flatten

/-- Serialise a sequence of frames as the writer would emit them. -/
def framesBytes (ps : List (List Nat)) : List Nat :=
  (ps.map encodeFrame).flatten

/-- The header dict `hs` holds no `content-length` binding. -/
def noCL (hs : List (List Nat × List Nat)) : Prop :=
  hget hs clKeyBytes = none

/-! ## Lazy embedding model (`_get_embed_model`, server.py lines 114-124)

```
_embed_model: Optional[SentenceTransformer] = None

def _get_embed_model() -> SentenceTransformer:
    global _embed_model
    if _embed_model is None:
        log.info(...)
        _embed_model = SentenceTransformer(EMBED_MODEL_NAME)
        log.info(...)
    return _embed_model
```

The `SentenceTransformer` constructor is abstracted as a `CtorOutcome`;
each call records the outcome, the new `_embed_model` global, how many
times the constructor ran, and which `time.sleep` durations (in seconds)
were requested — the function body contains no sleep and no retry, so the
last two are 0/empty except for the single constructor run. -/

/-- Behaviour of one `SentenceTransformer(EMBED_MODEL_NAME)` invocation:
it returns a handle or raises, and a raised error is or is not a
`TimeoutError`. -/
inductive CtorOutcome where
  | ok (handle : Nat) : CtorOutcome
  | raise (isTimeout : Bool) : CtorOutcome
deriving DecidableEq

/-- Outcome of a `_get_embed_model()` call as seen by its caller. -/
inductive EmbedResult where
  | ok (handle : Nat) : EmbedResult
  | raised (isTimeout : Bool) : EmbedResult
deriving DecidableEq

/-- Observable effect of one `_get_embed_model()` call. -/
structure EmbedCall where
  result : EmbedResult
  state : Option Nat
  ctorCalls : Nat
  sleeps : List Nat
deriving DecidableEq

/-- One call of `_get_embed_model` with global `_embed_model = st`: when a
handle is cached it is returned with no constructor call; otherwise the
constructor runs once, and an exception leaves the global unset and
propagates (there is no try/except, retry loop, or sleep in the body). -/
def getEmbedModel (ctor : CtorOutcome) (st : Option Nat) : EmbedCall :=
  match st with
  | some h => ⟨.ok h, some h, 0, []⟩
  | none =>
    match ctor with
    | .ok h => ⟨.ok h, some h, 1, []⟩
    | .raise t => ⟨.raised t, none, 1, []⟩

/-- A sequence of `n` successive `_get_embed_model()` calls (the
constructor behaving the same way each time it runs): the list of
per-call results, the final global, and the total constructor runs. -/
def callSeq (ctor : CtorOutcome) : Nat → Option Nat → List EmbedResult × Option Nat × Nat
  | 0, st => ([], st, 0)
  | n + 1, st =>
    let c := getEmbedModel ctor st
    let r := callSeq ctor n c.state
    (c.result :: r.1, r.2.1, c.ctorCalls + r.2.2)

/-! ## Redis startup probe and store-gated tools
(`_check_redis_connection`, server.py lines 81-93; `set_memory` lines
438-443; `get_memory` lines 446-451) -/

/-- The module globals consulted by the store-gated tools. -/
structure ServerState where
  memoryEnabled : Bool
  redisClient : Option Unit
deriving DecidableEq

/-- Body of the `try:` block of `_check_redis_connection`: awaiting
`redis_client.ping` either succeeds or raises. -/
def checkRedisBody (ping : Except String Unit) (st : ServerState) :
    Except String ServerState :=
  match ping with
  | .ok _ => .ok ⟨true, st.redisClient⟩
  | .error e => .error e

/-- `_check_redis_connection`: the `except Exception` handler turns any
failure into `redis_client = None; MEMORY_ENABLED = False`, so the
function itself always returns normally. -/
def checkRedisConnection (ping : Except String Unit) (st : ServerState) :
    Except String ServerState :=
  match checkRedisBody ping st with
  | .ok s => .ok s
  | .error _ => .ok ⟨false, none⟩

/-- An association-list model of the Redis string keyspace. -/
def storeSet : List (String × String) → String → String → List (String × String)
  | [], k, v => [(k, v)]
  | (k', v') :: t, k, v =>
    if k' = k then (k, v) :: t else (k', v') :: storeSet t k v

/-- Redis `GET` on the association-list keyspace. -/
def storeGet : List (String × String) → String → Option String
  | [], _ => none
  | (k', v') :: t, k => if k' = k then some v' else storeGet t k

/-- The `set_memory` tool: the guard
`if not MEMORY_ENABLED or not redis_client: raise RuntimeError(...)`
runs before any store access; on success the value is written under the
`mem:` key and `{"ok": True, "key": key}` is returned (modelled as the
updated keyspace with the echoed key). -/
def set_memory (st : ServerState) (store : List (String × String))
    (key value : String) : Except String (List (String × String) × String) :=
  if st.memoryEnabled = false ∨ st.redisClient = none then
    .error "Redis memory is not enabled."
  else
    .ok (storeSet store ("mem:" ++ key) value, key)

/-- The `get_memory` tool, with the same guard, returning the key and the
optional stored value. -/
def get_memory (st : ServerState) (store : List (String × String))
    (key : String) : Except String (String × Option String) :=
  if st.memoryEnabled = false ∨ st.redisClient = none then
    .error "Redis memory is not enabled."
  else
    .ok (key, storeGet store ("mem:" ++ key))

/-! ## Lemmas about the byte-stream primitives -/

theorem readline_append_eq (s : List Nat) :
    (readline s).1 ++ (readline s).2 = s := by
  induction s with
  | nil => simp [readline]
  | cons b rest ih =>
    by_cases hb : b = 10
    · simp [readline, hb]
    · simp [readline, hb, ih]

theorem readline_fst_ne_nil {s : List Nat} (h : s ≠ []) :
    (readline s).1 ≠ [] := by
  cases s with
  | nil => exact absurd rfl h
  | cons b rest =>
    by_cases hb : b = 10 <;> simp [readline, hb]

theorem readline_snd_lt {s : List Nat} (h : s ≠ []) :
    (readline s).2.length < s.length := by
  have hlen : (readline s).1.length + (readline s).2.length = s.length := by
    conv_rhs => rw [← readline_append_eq s]
    rw [List.length_append]
  have h1 : (readline s).1.length ≠ 0 :=
    fun hz => readline_fst_ne_nil h (List.length_eq_zero.mp hz)
  omega

theorem readline_append {xs : List Nat} (hx : ∀ b ∈ xs, b ≠ 10) (ys : List Nat) :
    readline (xs ++ 10 :: ys) = (xs ++ [10], ys) := by
  induction xs with
  | nil => simp [readline]
  | cons b t ih =>
    have hb : b ≠ 10 := hx b (by simp)
    have ih2 := ih (fun c hc => hx c (by simp [hc]))
    simp [readline, hb, ih2]

theorem stripCRLF_crlf (xs : List Nat) : stripCRLF (xs ++ [13, 10]) = xs := by
  have h2 : (xs ++ [13, 10]).reverse.take 2 = [10, 13] := by
    simp [List.reverse_append]
  have hd : (xs ++ [13, 10]).dropLast.dropLast = xs := by
    have : xs ++ [13, 10] = (xs ++ [13]) ++ [10] := by simp
    rw [this]
    simp
  rw [stripCRLF, if_pos h2, hd]

theorem splitColon_append {xs : List Nat} (hx : ∀ b ∈ xs, b ≠ 58) (ys : List Nat) :
    splitColon (xs ++ 58 :: ys) = some (xs, ys) := by
  induction xs with
  | nil => simp [splitColon]
  | cons b t ih =>
    have hb : b ≠ 58 := hx b (by simp)
    have ih2 := ih (fun c hc => hx c (by simp [hc]))
    simp [splitColon, hb, ih2]

theorem hget_hset_self (hs : List (List Nat × List Nat)) (k v : List Nat) :
    hget (hset hs k v) k = some v := by
  induction hs with
  | nil => simp [hset, hget]
  | cons p t ih =>
    by_cases hk : p.1 = k
    · simp [hset, hget, hk]
    · simp [hset, hget, hk, ih]

theorem hget_hset_ne (hs : List (List Nat × List Nat)) {k k' : List Nat}
    (h : k' ≠ k) (v : List Nat) : hget (hset hs k' v) k = hget hs k := by
  have h2 : k ≠ k' := Ne.symm h
  induction hs with
  | nil => simp [hset, hget, h]
  | cons p t ih =>
    obtain ⟨a, w⟩ := p
    by_cases hk : a = k'
    · simp [hset, hget, hk, h, h2]
    · by_cases hk2 : a = k
      · simp [hset, hget, hk, hk2, h, h2]
      · simp [hset, hget, hk, hk2, ih]

theorem pyStrip_of_no_space {l : List Nat} (h : ∀ b ∈ l, isSpaceByte b = false) :
    pyStrip l = l := by
  have h1 : l.dropWhile isSpaceByte = l := by
    cases l with
    | nil => rfl
    | cons b t => exact List.dropWhile_cons_of_neg (by simp [h b (by simp)])
  have h2 : l.reverse.dropWhile isSpaceByte = l.reverse := by
    cases hr : l.reverse with
    | nil => rfl
    | cons b t =>
      refine List.dropWhile_cons_of_neg ?_
      have hb : b ∈ l := by
        have : b ∈ l.reverse := by rw [hr]; simp
        simpa using this
      simp [h b hb]
  rw [pyStrip, h1, h2, List.reverse_reverse]

theorem pyStrip_cons_space {b : Nat} (hb : isSpaceByte b = true) (l : List Nat) :
    pyStrip (b :: l) = pyStrip l := by
  rw [pyStrip, pyStrip, List.dropWhile_cons_of_pos hb]

theorem asciiIgnore_of_lt {l : List Nat} (h : ∀ b ∈ l, b < 128) :
    asciiIgnore l = l := by
  rw [asciiIgnore]
  exact List.filter_eq_self.mpr (fun a ha => by simpa using h a ha)

theorem isSpaceByte_of_digit {b : Nat} (h : isDigitByte b = true) :
    isSpaceByte b = false := by
  simp only [isDigitByte, Bool.and_eq_true, decide_eq_true_eq] at h
  simp only [isSpaceByte, Bool.or_eq_false_iff, Bool.and_eq_false_iff,
    decide_eq_false_iff_not]
  omega

/-! ## Decimal digits: `str(n)` and `int()` round-trip -/

theorem natDigitsF_eq {f g n : Nat} (hf : n < f) (hg : n < g) :
    natDigitsF f n = natDigitsF g n := by
  induction f generalizing g n with
  | zero => omega
  | succ f ih =>
    cases g with
    | zero => omega
    | succ g =>
      by_cases h10 : n < 10
      · simp [natDigitsF, h10]
      · have hdiv : n / 10 < n := Nat.div_lt_self (by omega) (by omega)
        simp only [natDigitsF, if_neg h10]
        rw [ih (n := n / 10) (g := g) (by omega) (by omega)]

theorem natDigits_lt10 {n : Nat} (h : n < 10) : natDigits n = [48 + n] := by
  simp [natDigits, natDigitsF, h]

theorem natDigits_ge10 {n : Nat} (h : 10 ≤ n) :
    natDigits n = natDigits (n / 10) ++ [48 + n % 10] := by
  have hdiv : n / 10 < n := Nat.div_lt_self (by omega) (by omega)
  rw [natDigits, natDigits]
  show natDigitsF (n + 1) n = _
  rw [natDigitsF, if_neg (by omega)]
  rw [natDigitsF_eq (g := n / 10 + 1) (by omega) (by omega)]

theorem natDigits_digits (n : Nat) : ∀ b ∈ natDigits n, isDigitByte b = true := by
  induction n using Nat.strong_induction_on with
  | _ n ih =>
    by_cases h10 : n < 10
    · rw [natDigits_lt10 h10]
      intro b hb
      simp only [List.mem_singleton] at hb
      subst hb
      simp only [isDigitByte, Bool.and_eq_true, decide_eq_true_eq]
      omega
    · rw [natDigits_ge10 (by omega)]
      intro b hb
      rcases List.mem_append.mp hb with h1 | h2
      · exact ih (n / 10) (Nat.div_lt_self (by omega) (by omega)) b h1
      · simp only [List.mem_singleton] at h2
        subst h2
        have : n % 10 < 10 := Nat.mod_lt _ (by omega)
        simp only [isDigitByte, Bool.and_eq_true, decide_eq_true_eq]
        omega

theorem natDigits_ne_nil (n : Nat) : natDigits n ≠ [] := by
  by_cases h10 : n < 10
  · rw [natDigits_lt10 h10]; simp
  · rw [natDigits_ge10 (by omega)]; simp

theorem natDigits_foldl (n : Nat) :
    ∀ acc, (natDigits n).foldl (fun a b => a * 10 + (b - 48)) acc =
      acc * 10 ^ (natDigits n).length + n := by
  induction n using Nat.strong_induction_on with
  | _ n ih =>
    intro acc
    by_cases h10 : n < 10
    · rw [natDigits_lt10 h10]
      simp [List.foldl]
    · have hdiv : n / 10 < n := Nat.div_lt_self (by omega) (by omega)
      rw [natDigits_ge10 (by omega), List.foldl_append, List.length_append]
      rw [ih (n / 10) hdiv acc]
      simp only [List.foldl, List.length_singleton]
      have hmod : 48 + n % 10 - 48 = n % 10 := by omega
      rw [hmod, pow_succ]
      have hdm : n / 10 * 10 + n % 10 = n := by omega
      ring_nf
      omega

theorem pyDigits_all_digits {xs : List Nat}
    (hx : ∀ b ∈ xs, isDigitByte b = true) (acc : Nat) :
    pyDigits xs acc = some (xs.foldl (fun a b => a * 10 + (b - 48)) acc) := by
  induction xs generalizing acc with
  | nil => simp [pyDigits]
  | cons b t ih =>
    have hb : isDigitByte b = true := hx b (by simp)
    have ih2 := ih (fun c hc => hx c (by simp [hc]))
    simp only [pyDigits, hb, ite_true]
    rw [ih2]
    simp [List.foldl_cons]

theorem pyNat_natDigits (n : Nat) : pyNat (natDigits n) = some n := by
  obtain ⟨d, ds, hds⟩ := List.exists_cons_of_ne_nil (natDigits_ne_nil n)
  have hd : isDigitByte d = true := by
    have := natDigits_digits n d
    rw [hds] at this
    exact this (by simp)
  have hall : ∀ b ∈ ds, isDigitByte b = true := by
    intro b hb
    have := natDigits_digits n b
    rw [hds] at this
    exact this (by simp [hb])
  have hfold := natDigits_foldl n 0
  rw [hds] at hfold
  simp only [List.foldl, Nat.zero_mul, Nat.zero_add] at hfold
  rw [hds, pyNat, if_pos hd, pyDigits_all_digits hall]
  rw [hfold]

theorem pyInt_natDigits (n : Nat) : pyInt (natDigits n) = some (n : Int) := by
  obtain ⟨d, ds, hds⟩ := List.exists_cons_of_ne_nil (natDigits_ne_nil n)
  have hd : isDigitByte d = true := by
    have := natDigits_digits n d
    rw [hds] at this
    exact this (by simp)
  have hd2 : 48 ≤ d ∧ d ≤ 57 := by
    simpa [isDigitByte] using hd
  have hpy := pyNat_natDigits n
  rw [hds] at hpy ⊢
  rw [pyInt, if_neg (by omega), if_neg (by omega), hpy]
  rfl

theorem procVal_space_digits {ds : List Nat}
    (hd : ∀ b ∈ ds, isDigitByte b = true) : procVal (32 :: ds) = ds := by
  have hlt : ∀ b ∈ (32 :: ds), b < 128 := by
    intro b hb
    rcases List.mem_cons.mp hb with h1 | h2
    · omega
    · have := hd b h2
      simp only [isDigitByte, Bool.and_eq_true, decide_eq_true_eq] at this
      omega
  rw [procVal, asciiIgnore_of_lt hlt, pyStrip_cons_space (by simp [isSpaceByte])]
  exact pyStrip_of_no_space (fun b hb => isSpaceByte_of_digit (hd b hb))

theorem procVal_space {v : List Nat} (hascii : ∀ b ∈ v, b < 128) :
    procVal (32 :: v) = pyStrip v := by
  have hlt : ∀ b ∈ (32 :: v), b < 128 := by
    intro b hb
    rcases List.mem_cons.mp hb with h1 | h2
    · omega
    · exact hascii b h2
  rw [procVal, asciiIgnore_of_lt hlt, pyStrip_cons_space (by simp [isSpaceByte])]

/-! ## Single-step characterisations of `read_packet` -/

theorem readPacketGo_step_eof {s rest : List Nat}
    {hs : List (List Nat × List Nat)} (fuel : Nat)
    (hline : readline s = ([], rest)) :
    readPacketGo (fuel + 1) s hs = some .eof := by
  conv_lhs => unfold readPacketGo
  rw [hline]
  dsimp only
  rw [if_pos rfl]

theorem readPacketGo_step_noise {s line rest : List Nat}
    {hs : List (List Nat × List Nat)} (fuel : Nat)
    (hline : readline s = (line, rest)) (hne : line ≠ [])
    (hnb : stripCRLF line ≠ [])
    (hnc : splitColon (stripCRLF line) = none) :
    readPacketGo (fuel + 1) s hs = readPacketGo fuel rest hs := by
  conv_lhs => unfold readPacketGo
  rw [hline]
  dsimp only
  rw [if_neg hne, if_neg hnb, hnc]

theorem readPacketGo_step_header {s line rest k v : List Nat}
    {hs : List (List Nat × List Nat)} (fuel : Nat)
    (hline : readline s = (line, rest)) (hne : line ≠ [])
    (hnb : stripCRLF line ≠ [])
    (hc : splitColon (stripCRLF line) = some (k, v)) :
    readPacketGo (fuel + 1) s hs =
      readPacketGo fuel rest (hset hs (procKey k) (procVal v)) := by
  conv_lhs => unfold readPacketGo
  rw [hline]
  dsimp only
  rw [if_neg hne, if_neg hnb, hc]

theorem readPacketGo_step_blank_nocl {s line rest : List Nat}
    {hs : List (List Nat × List Nat)} (fuel : Nat)
    (hline : readline s = (line, rest)) (hne : line ≠ [])
    (hb : stripCRLF line = []) (hg : hget hs clKeyBytes = none) :
    readPacketGo (fuel + 1) s hs = readPacketGo fuel rest [] := by
  conv_lhs => unfold readPacketGo
  rw [hline]
  dsimp only
  rw [if_neg hne, if_pos hb, hg]

theorem readPacketGo_step_blank_emptyv {s line rest : List Nat}
    {hs : List (List Nat × List Nat)} (fuel : Nat)
    (hline : readline s = (line, rest)) (hne : line ≠ [])
    (hb : stripCRLF line = []) (hg : hget hs clKeyBytes = some []) :
    readPacketGo (fuel + 1) s hs = readPacketGo fuel rest [] := by
  conv_lhs => unfold readPacketGo
  rw [hline]
  dsimp only
  rw [if_neg hne, if_pos hb, hg]
  rfl

theorem readPacketGo_step_blank_badint {s line rest v : List Nat}
    {hs : List (List Nat × List Nat)} (fuel : Nat)
    (hline : readline s = (line, rest)) (hne : line ≠ [])
    (hb : stripCRLF line = []) (hg : hget hs clKeyBytes = some v)
    (hv : v ≠ []) (hp : pyInt v = none) :
    readPacketGo (fuel + 1) s hs = readPacketGo fuel rest [] := by
  conv_lhs => unfold readPacketGo
  rw [hline]
  dsimp only
  rw [if_neg hne, if_pos hb, hg]
  dsimp only
  rw [if_neg hv, hp]

theorem readPacketGo_step_blank_len {s line rest v : List Nat} {len : Int}
    {hs : List (List Nat × List Nat)} (fuel : Nat)
    (hline : readline s = (line, rest)) (hne : line ≠ [])
    (hb : stripCRLF line = []) (hg : hget hs clKeyBytes = some v)
    (hv : v ≠ []) (hp : pyInt v = some len) :
    readPacketGo (fuel + 1) s hs = some (readBody len rest) := by
  conv_lhs => unfold readPacketGo
  rw [hline]
  dsimp only
  rw [if_neg hne, if_pos hb, hg]
  dsimp only
  rw [if_neg hv, hp]

/-! ## Fuel irrelevance and progress of the decoder -/

theorem readBody_packet_le {len : Int} {r body rest : List Nat}
    (h : readBody len r = .packet body rest) : rest.length ≤ r.length := by
  unfold readBody at h
  split_ifs at h <;> injection h with hb hr <;> subst hr <;> simp [Nat.sub_le]

theorem readline_nil_of_fst_nil {s line rest : List Nat}
    (hrl : readline s = (line, rest)) (h1 : line ≠ []) : s ≠ [] := by
  intro he
  rw [he] at hrl
  have hl : ([] : List Nat) = line := congrArg Prod.fst hrl
  exact h1 hl.symm

theorem readPacketGo_fuel : ∀ {f g : Nat} {s : List Nat}
    {hs : List (List Nat × List Nat)},
    s.length < f → s.length < g → readPacketGo f s hs = readPacketGo g s hs := by
  intro f
  induction f with
  | zero => intro g s hs hf hg; omega
  | succ f ih =>
    intro g s hs hf hg
    cases g with
    | zero => omega
    | succ g =>
      rcases hrl : readline s with ⟨line, rest⟩
      by_cases h1 : line = []
      · subst h1
        rw [readPacketGo_step_eof f hrl, readPacketGo_step_eof g hrl]
      · have hsne : s ≠ [] := readline_nil_of_fst_nil hrl h1
        have hlt : rest.length < s.length := by
          have h2 := readline_snd_lt hsne
          rw [hrl] at h2
          exact h2
        have hf2 : rest.length < f := by omega
        have hg2 : rest.length < g := by omega
        by_cases h2 : stripCRLF line = []
        · cases hh : hget hs clKeyBytes with
          | none =>
            rw [readPacketGo_step_blank_nocl f hrl h1 h2 hh,
              readPacketGo_step_blank_nocl g hrl h1 h2 hh]
            exact ih hf2 hg2
          | some v =>
            by_cases hv : v = []
            · subst hv
              rw [readPacketGo_step_blank_emptyv f hrl h1 h2 hh,
                readPacketGo_step_blank_emptyv g hrl h1 h2 hh]
              exact ih hf2 hg2
            · cases hp : pyInt v with
              | none =>
                rw [readPacketGo_step_blank_badint f hrl h1 h2 hh hv hp,
                  readPacketGo_step_blank_badint g hrl h1 h2 hh hv hp]
                exact ih hf2 hg2
              | some len =>
                rw [readPacketGo_step_blank_len f hrl h1 h2 hh hv hp,
                  readPacketGo_step_blank_len g hrl h1 h2 hh hv hp]
        · cases hc : splitColon (stripCRLF line) with
          | none =>
            rw [readPacketGo_step_noise f hrl h1 h2 hc,
              readPacketGo_step_noise g hrl h1 h2 hc]
            exact ih hf2 hg2
          | some kv =>
            obtain ⟨k, v⟩ := kv
            rw [readPacketGo_step_header f hrl h1 h2 hc,
              readPacketGo_step_header g hrl h1 h2 hc]
            exact ih hf2 hg2

theorem readPacketGo_packet_lt : ∀ {f : Nat} {s : List Nat}
    {hs : List (List Nat × List Nat)} {body rest2 : List Nat},
    readPacketGo f s hs = some (.packet body rest2) → rest2.length < s.length := by
  intro f
  induction f with
  | zero =>
    intro s hs body rest2 h
    simp [readPacketGo] at h
  | succ f ih =>
    intro s hs body rest2 h
    rcases hrl : readline s with ⟨line, rest⟩
    by_cases h1 : line = []
    · subst h1
      rw [readPacketGo_step_eof f hrl] at h
      simp at h
    · have hsne : s ≠ [] := readline_nil_of_fst_nil hrl h1
      have hlt : rest.length < s.length := by
        have h2 := readline_snd_lt hsne
        rw [hrl] at h2
        exact h2
      by_cases h2 : stripCRLF line = []
      · cases hh : hget hs clKeyBytes with
        | none =>
          rw [readPacketGo_step_blank_nocl f hrl h1 h2 hh] at h
          exact lt_trans (ih h) hlt
        | some v =>
          by_cases hv : v = []
          · subst hv
            rw [readPacketGo_step_blank_emptyv f hrl h1 h2 hh] at h
            exact lt_trans (ih h) hlt
          · cases hp : pyInt v with
            | none =>
              rw [readPacketGo_step_blank_badint f hrl h1 h2 hh hv hp] at h
              exact lt_trans (ih h) hlt
            | some len =>
              rw [readPacketGo_step_blank_len f hrl h1 h2 hh hv hp] at h
              have hb2 : readBody len rest = .packet body rest2 := by
                injection h
              have hle := readBody_packet_le hb2
              omega
      · cases hc : splitColon (stripCRLF line) with
        | none =>
          rw [readPacketGo_step_noise f hrl h1 h2 hc] at h
          exact lt_trans (ih h) hlt
        | some kv =>
          obtain ⟨k, v⟩ := kv
          rw [readPacketGo_step_header f hrl h1 h2 hc] at h
          exact lt_trans (ih h) hlt

/-! ## Decoding a well-formed `Content-Length` block -/

theorem clHeadBytes_no_lf : ∀ b ∈ clHeadBytes, b ≠ 10 := by decide

theorem clKeyRaw_no_colon : ∀ b ∈ clKeyRaw, b ≠ 58 := by decide

theorem procKey_clKeyRaw : procKey clKeyRaw = clKeyBytes := by decide

theorem readline_crlf (X : List Nat) : readline (13 :: 10 :: X) = ([13, 10], X) := by
  simp [readline]

theorem stripCRLF_cr_lf : stripCRLF [13, 10] = [] := rfl

theorem readPacketGo_rawheader_step {v : List Nat} (h10 : 10 ∉ v)
    (hascii : ∀ b ∈ v, b < 128) (rest : List Nat)
    (hs : List (List Nat × List Nat)) (fuel : Nat) :
    readPacketGo (fuel + 1) (mkRawHeader v ++ rest) hs =
      readPacketGo fuel (13 :: 10 :: rest) (hset hs clKeyBytes (pyStrip v)) := by
  have hshape : mkRawHeader v ++ rest =
      (clHeadBytes ++ v ++ [13]) ++ 10 :: (13 :: 10 :: rest) := by
    simp [mkRawHeader, List.append_assoc]
  have hno : ∀ b ∈ (clHeadBytes ++ v ++ [13]), b ≠ 10 := by
    intro b hb
    simp only [List.mem_append, List.mem_singleton] at hb
    rcases hb with (hb | hb) | hb
    · exact clHeadBytes_no_lf b hb
    · intro he; subst he; exact h10 hb
    · omega
  have hline : readline (mkRawHeader v ++ rest) =
      ((clHeadBytes ++ v ++ [13]) ++ [10], 13 :: 10 :: rest) := by
    rw [hshape, readline_append hno]
  have hne : (clHeadBytes ++ v ++ [13]) ++ [10] ≠ [] := by simp
  have hstrip : stripCRLF ((clHeadBytes ++ v ++ [13]) ++ [10]) = clHeadBytes ++ v := by
    have hsh : (clHeadBytes ++ v ++ [13]) ++ [10] = (clHeadBytes ++ v) ++ [13, 10] := by
      simp [List.append_assoc]
    rw [hsh, stripCRLF_crlf]
  have hnb : stripCRLF ((clHeadBytes ++ v ++ [13]) ++ [10]) ≠ [] := by
    rw [hstrip]; simp [clHeadBytes]
  have hsplit : splitColon (stripCRLF ((clHeadBytes ++ v ++ [13]) ++ [10])) =
      some (clKeyRaw, 32 :: v) := by
    rw [hstrip]
    have hsh2 : clHeadBytes ++ v = clKeyRaw ++ 58 :: (32 :: v) := rfl
    rw [hsh2, splitColon_append clKeyRaw_no_colon]
  rw [readPacketGo_step_header fuel hline hne hnb hsplit, procKey_clKeyRaw,
    procVal_space hascii]

theorem readPacketGo_lenvalue {v : List Nat} {len : Int} (h10 : 10 ∉ v)
    (hascii : ∀ b ∈ v, b < 128) (hvne : pyStrip v ≠ [])
    (hp : pyInt (pyStrip v) = some len) (rest : List Nat)
    (hs : List (List Nat × List Nat)) (fuel : Nat) :
    readPacketGo (fuel + 1 + 1) (mkRawHeader v ++ rest) hs =
      some (readBody len rest) := by
  rw [readPacketGo_rawheader_step h10 hascii rest hs (fuel + 1)]
  exact readPacketGo_step_blank_len fuel (readline_crlf rest) (by simp)
    stripCRLF_cr_lf (hget_hset_self hs clKeyBytes (pyStrip v)) hvne hp

theorem readPacketGo_skipheader {v : List Nat} (h10 : 10 ∉ v)
    (hascii : ∀ b ∈ v, b < 128) (hbad : pyInt (pyStrip v) = none)
    (rest : List Nat) (hs : List (List Nat × List Nat)) (fuel : Nat) :
    readPacketGo (fuel + 1 + 1) (mkRawHeader v ++ rest) hs =
      readPacketGo fuel rest [] := by
  rw [readPacketGo_rawheader_step h10 hascii rest hs (fuel + 1)]
  by_cases hv : pyStrip v = []
  · have hg : hget (hset hs clKeyBytes (pyStrip v)) clKeyBytes = some [] := by
      rw [hget_hset_self, hv]
    exact readPacketGo_step_blank_emptyv fuel (readline_crlf rest) (by simp)
      stripCRLF_cr_lf hg
  · exact readPacketGo_step_blank_badint fuel (readline_crlf rest) (by simp)
      stripCRLF_cr_lf (hget_hset_self hs clKeyBytes (pyStrip v)) hv hbad

theorem digits_ascii (n : Nat) : ∀ b ∈ natDigits n, b < 128 := by
  intro b hb
  have := natDigits_digits n b hb
  simp only [isDigitByte, Bool.and_eq_true, decide_eq_true_eq] at this
  omega

theorem digits_no_lf (n : Nat) : 10 ∉ natDigits n := by
  intro hb
  have := natDigits_digits n 10 hb
  simp [isDigitByte] at this

theorem pyStrip_digits (n : Nat) : pyStrip (natDigits n) = natDigits n :=
  pyStrip_of_no_space (fun b hb => isSpaceByte_of_digit (natDigits_digits n b hb))

theorem encodeFrame_eq (P : List Nat) :
    encodeFrame P = mkRawHeader (natDigits P.length) ++ P := by
  simp [encodeFrame, mkRawHeader, List.append_assoc]

theorem readBody_exact {P : List Nat} (hP : P ≠ []) (tail : List Nat) :
    readBody ((P.length : Int)) (P ++ tail) = .packet P tail := by
  have h1 : ¬((P.length : Int) < -1) := by omega
  have h2 : ¬((P.length : Int) = -1) := by omega
  have htn : ((P.length : Int)).toNat = P.length := by omega
  have hcond : ¬((P ++ tail).take P.length = [] ∨
      ((P ++ tail).take P.length).length < P.length) := by
    rw [List.take_left]
    rintro (h | h)
    · exact hP h
    · omega
  unfold readBody
  rw [if_neg h1, if_neg h2, htn, if_neg hcond, List.take_left, List.drop_left]

theorem readBody_short {n : Nat} (hn : 0 < n) {body : List Nat}
    (hlen : body.length < n) : readBody (n : Int) body = .eof := by
  have h1 : ¬((n : Int) < -1) := by omega
  have h2 : ¬((n : Int) = -1) := by omega
  have htn : ((n : Int)).toNat = n := by omega
  have hcond : body.take n = [] ∨ (body.take n).length < n := by
    right
    rw [List.length_take]
    omega
  unfold readBody
  rw [if_neg h1, if_neg h2, htn, if_pos hcond]

theorem readPacketGo_frame {P : List Nat} (hP : P ≠ []) (tail : List Nat)
    (hs : List (List Nat × List Nat)) (fuel : Nat) :
    readPacketGo (fuel + 1 + 1) (encodeFrame P ++ tail) hs =
      some (.packet P tail) := by
  rw [encodeFrame_eq, List.append_assoc]
  rw [readPacketGo_lenvalue (digits_no_lf _) (digits_ascii _)
    (by rw [pyStrip_digits]; exact natDigits_ne_nil _)
    (by rw [pyStrip_digits]; exact pyInt_natDigits _) (P ++ tail) hs fuel]
  rw [readBody_exact hP tail]

/-! ## Skipping garbage and decoding whole streams -/

theorem readPacket_eq_go {s : List Nat} {f : Nat} (hf : s.length < f) :
    readPacket s = readPacketGo f s [] :=
  readPacketGo_fuel (by omega) hf

theorem readPacket_packet_lt {s body rest : List Nat}
    (h : readPacket s = some (.packet body rest)) : rest.length < s.length :=
  readPacketGo_packet_lt (f := s.length + 1) h

theorem decodeLoop_fuel : ∀ {f g : Nat} {s : List Nat},
    s.length < f → s.length < g → decodeLoop f s = decodeLoop g s := by
  intro f
  induction f with
  | zero => intro g s hf hg; omega
  | succ f ih =>
    intro g s hf hg
    cases g with
    | zero => omega
    | succ g =>
      cases hr : readPacket s with
      | none => simp [decodeLoop, hr]
      | some r =>
        cases r with
        | eof => simp [decodeLoop, hr]
        | err => simp [decodeLoop, hr]
        | packet b rest =>
          have hlt : rest.length < s.length := readPacket_packet_lt hr
          simp only [decodeLoop, hr]
          rw [ih (g := g) (by omega) (by omega)]

theorem decodeStream_eq_loop {s : List Nat} {f : Nat} (hf : s.length < f) :
    decodeStream s = decodeLoop f s :=
  decodeLoop_fuel (by omega) hf

theorem readPacketGo_garbage : ∀ (bodies : List (List Nat)),
    (∀ b ∈ bodies, 10 ∉ b ∧ lineOk b = true) →
    ∀ (s : List Nat) (hs : List (List Nat × List Nat)) (f : Nat), noCL hs →
    ∃ hs2, noCL hs2 ∧
      readPacketGo (bodies.length + f) (garbageBytes bodies ++ s) hs =
        readPacketGo f s hs2 := by
  intro bodies
  induction bodies with
  | nil =>
    intro hb s hs f hcl
    exact ⟨hs, hcl, by simp [garbageBytes]⟩
  | cons b bs ih =>
    intro hb s hs f hcl
    obtain ⟨h10, hok⟩ := hb b (by simp)
    have hbs : ∀ x ∈ bs, 10 ∉ x ∧ lineOk x = true := fun x hx => hb x (by simp [hx])
    have hshape : garbageBytes (b :: bs) ++ s = b ++ 10 :: (garbageBytes bs ++ s) := by
      simp [garbageBytes, List.append_assoc]
    have hlenf : (b :: bs).length + f = (bs.length + f) + 1 := by
      simp only [List.length_cons]
      omega
    have hno : ∀ c ∈ b, c ≠ 10 := fun c hc he => h10 (he ▸ hc)
    have hline : readline (garbageBytes (b :: bs) ++ s) =
        (b ++ [10], garbageBytes bs ++ s) := by
      rw [hshape, readline_append hno]
    have hne : b ++ [10] ≠ [] := by simp
    rw [hlenf]
    by_cases hblank : stripCRLF (b ++ [10]) = []
    · rw [readPacketGo_step_blank_nocl (bs.length + f) hline hne hblank hcl]
      exact ih hbs s [] f rfl
    · cases hc : splitColon (stripCRLF (b ++ [10])) with
      | none =>
        rw [readPacketGo_step_noise (bs.length + f) hline hne hblank hc]
        exact ih hbs s hs f hcl
      | some kv =>
        obtain ⟨k, w⟩ := kv
        have hkne : procKey k ≠ clKeyBytes := by
          unfold lineOk at hok
          rw [hc] at hok
          simpa using hok
        rw [readPacketGo_step_header (bs.length + f) hline hne hblank hc]
        refine ih hbs s _ f ?_
        show hget (hset hs (procKey k) (procVal w)) clKeyBytes = none
        rw [hget_hset_ne hs hkne (procVal w)]
        exact hcl

theorem garbageBytes_len_ge (bodies : List (List Nat)) :
    bodies.length ≤ (garbageBytes bodies).length := by
  induction bodies with
  | nil => simp [garbageBytes]
  | cons b bs ih =>
    have hshape : garbageBytes (b :: bs) = (b ++ [10]) ++ garbageBytes bs := by
      simp [garbageBytes]
    rw [hshape, List.length_append, List.length_append]
    simp only [List.length_cons, List.length_singleton]
    omega

theorem readPacket_frame {P : List Nat} (hP : P ≠ []) (tail : List Nat) :
    readPacket (encodeFrame P ++ tail) = some (.packet P tail) := by
  have hlen : 0 < (encodeFrame P ++ tail).length := by
    rw [encodeFrame_eq]
    simp [mkRawHeader, clHeadBytes]
  rw [readPacket_eq_go (f := ((encodeFrame P ++ tail).length - 1) + 1 + 1)
    (by omega)]
  exact readPacketGo_frame hP tail [] _

theorem decodeStream_garbage_frames : ∀ (ps : List (List Nat))
    (bodies : List (List Nat)),
    (∀ b ∈ bodies, 10 ∉ b ∧ lineOk b = true) →
    (∀ P ∈ ps, P ≠ []) →
    decodeStream (garbageBytes bodies ++ framesBytes ps) = ps := by
  intro ps
  induction ps with
  | nil =>
    intro bodies hb hP
    have hfb : framesBytes ([] : List (List Nat)) = [] := rfl
    rw [hfb, List.append_nil]
    obtain ⟨hs2, hcl2, heq⟩ := readPacketGo_garbage bodies hb [] []
      ((garbageBytes bodies).length + 1) rfl
    rw [List.append_nil] at heq
    have hrp : readPacket (garbageBytes bodies) = some .eof := by
      rw [readPacket_eq_go
        (f := bodies.length + ((garbageBytes bodies).length + 1)) (by omega)]
      rw [heq]
      exact readPacketGo_step_eof _ rfl
    simp [decodeStream, decodeLoop, hrp]
  | cons P ps ih =>
    intro bodies hb hP
    have hPne : P ≠ [] := hP P (by simp)
    have hps : ∀ Q ∈ ps, Q ≠ [] := fun Q hQ => hP Q (by simp [hQ])
    have hshape : framesBytes (P :: ps) = encodeFrame P ++ framesBytes ps := by
      simp [framesBytes]
    have hgge := garbageBytes_len_ge bodies
    obtain ⟨hs2, hcl2, heq⟩ := readPacketGo_garbage bodies hb
      (framesBytes (P :: ps)) []
      ((garbageBytes bodies).length + (framesBytes (P :: ps)).length + 2) rfl
    have hrp : readPacket (garbageBytes bodies ++ framesBytes (P :: ps)) =
        some (.packet P (framesBytes ps)) := by
      rw [readPacket_eq_go
        (f := bodies.length +
          ((garbageBytes bodies).length + (framesBytes (P :: ps)).length + 2))
        (by rw [List.length_append]; omega)]
      rw [heq, hshape]
      exact readPacketGo_frame hPne (framesBytes ps) hs2 _
    have hlt : (framesBytes ps).length <
        (garbageBytes bodies ++ framesBytes (P :: ps)).length :=
      readPacket_packet_lt hrp
    have hih := ih [] (by simp) hps
    rw [show garbageBytes ([] : List (List Nat)) = [] from rfl,
      List.nil_append] at hih
    unfold decodeStream
    conv_lhs => unfold decodeLoop
    rw [hrp]
    dsimp only
    rw [← decodeStream_eq_loop hlt, hih]

/-! ## Helper lemmas for the resource guard and the numeric tools -/

theorem callSeq_ready (ctor : CtorOutcome) (h : Nat) :
    ∀ m, callSeq ctor m (some h) = (List.replicate m (.ok h), some h, 0) := by
  intro m
  induction m with
  | zero => rfl
  | succ m ih =>
    simp [callSeq, getEmbedModel, ih, List.replicate_succ]

/-! ## Claims -/

/-- C1: the spec claims that on a timed-out initialization
`_get_embed_model` retries up to 3 total attempts with 1s and 2s backoff
sleeps and then raises an exhaustion error naming the attempt count and
timeout.  The code in server.py (lines 117-124) has no timeout handling,
no retry loop and no sleep: evaluated on a constructor that raises
`TimeoutError`, it makes exactly one constructor call, sleeps never, and
propagates the error — contradicting the claimed 3-attempt backoff. -/
theorem c1_timeout_single_attempt :
    getEmbedModel (.raise true) none = ⟨.raised true, none, 1, []⟩ ∧
    (getEmbedModel (.raise true) none).ctorCalls ≠ 3 ∧
    (getEmbedModel (.raise true) none).sleeps = [] := by
  exact ⟨rfl, by decide, rfl⟩

/-- C2 counterexample: for the empty payload the round-trip fails — the
writer emits `Content-Length: 0\r\n\r\n`, and `read_packet` answers with
the end-of-stream signal (`None`), not with the empty payload, because
`read(0)` returns empty bytes and the `if not body` truncation guard
fires. -/
theorem c2_empty_payload_cex :
    readPacket (encodeFrame []) = some ReadResult.eof ∧
    readPacket (encodeFrame []) ≠ some (ReadResult.packet [] []) := by
  decide

/-- C2 (amended): for every NONEMPTY payload P, decoding the writer's
frame for P yields exactly P (with any following bytes left in place),
and a stream holding exactly one frame decodes to the single payload P;
the empty payload instead yields the end-of-stream signal
(`c2_empty_payload_cex`). -/
theorem c2_roundtrip (P tail : List Nat) (hP : P ≠ []) :
    readPacket (encodeFrame P ++ tail) = some (.packet P tail) ∧
    decodeStream (encodeFrame P) = [P] := by
  refine ⟨readPacket_frame hP tail, ?_⟩
  have h := decodeStream_garbage_frames [P] [] (by simp)
    (by intro Q hQ; simp only [List.mem_singleton] at hQ; rw [hQ]; exact hP)
  simpa [garbageBytes, framesBytes] using h

/-- C2 witness: the round-trip at the concrete one-byte payload `A`. -/
theorem c2_roundtrip_witness :
    readPacket (encodeFrame [65] ++ []) = some (ReadResult.packet [65] []) ∧
    decodeStream (encodeFrame [65]) = [[65]] :=
  c2_roundtrip [65] [] (by decide)

/-- C3 counterexample: a header block with `Content-Length: -5` is NOT
discarded — Python `int("-5")` succeeds, so the decoder reaches
`read(-5)`, which raises `ValueError` out of `read_packet` (terminating
the reader) instead of restarting the scan; restarting would behave like
decoding the remaining bytes `XYZ`, which gives the eof signal. -/
theorem c3_negative_length_cex :
    readPacket (mkRawHeader [45, 53] ++ [88, 89, 90]) = some ReadResult.err ∧
    readPacket [88, 89, 90] = some ReadResult.eof := by
  decide

/-- C3 (amended): for every header value whose bytes fail Python `int()`
parsing (e.g. `abc`) the decoder discards the block and restarts scanning
on the remaining bytes, without raising and without delivering a payload;
values that `int()` does parse — including negative ones such as `-5` —
are NOT discarded (`c3_negative_length_cex`). -/
theorem c3_badvalue_skip {v : List Nat} (h10 : 10 ∉ v)
    (hascii : ∀ b ∈ v, b < 128) (hbad : pyInt (pyStrip v) = none)
    (s : List Nat) :
    readPacket (mkRawHeader v ++ s) = readPacket s := by
  have hpos : 0 < (mkRawHeader v).length := by
    simp [mkRawHeader, clHeadBytes]
  have hhl : (mkRawHeader v ++ s).length = (mkRawHeader v).length + s.length :=
    List.length_append _ _
  rw [readPacket_eq_go (f := (s.length + (mkRawHeader v).length) + 1 + 1)
    (by omega)]
  rw [readPacketGo_skipheader h10 hascii hbad s [] _]
  exact (readPacket_eq_go (by omega)).symm

/-- C3 witness: the unparsable value `abc` followed by the bytes `XYZ`. -/
theorem c3_badvalue_witness :
    readPacket (mkRawHeader [97, 98, 99] ++ [88, 89, 90]) =
      readPacket [88, 89, 90] :=
  c3_badvalue_skip (by decide) (by decide) (by decide) [88, 89, 90]

/-- C4 counterexample: the claim over ALL valid frames fails when one
frame has the empty payload — for `"JUNK\n" + frame("") + frame("A")`
the `Content-Length: 0` block makes `read_packet` return the
end-of-stream signal (the `if not body` guard fires on `read(0)`), so
the decoder yields `[]` rather than the claimed `["", "A"]`. -/
theorem c4_empty_frame_cex :
    decodeStream (garbageBytes [[74, 85, 78, 75]] ++ framesBytes [[], [65]]) =
      [] ∧
    decodeStream (garbageBytes [[74, 85, 78, 75]] ++ framesBytes [[], [65]]) ≠
      [[], [65]] := by
  decide

/-- C4 (amended): a stream of newline-terminated garbage lines (no line
carrying a `content-length` key) followed by any sequence of frames with
NONEMPTY payloads decodes to exactly those payloads in order, the
garbage discarded; a frame with an empty payload instead terminates
decoding with the end-of-stream signal (`c4_empty_frame_cex`), so
nothing after it is delivered. -/
theorem c4_garbage_tolerance (bodies ps : List (List Nat))
    (hb : ∀ b ∈ bodies, 10 ∉ b ∧ lineOk b = true)
    (hP : ∀ P ∈ ps, P ≠ []) :
    decodeStream (garbageBytes bodies ++ framesBytes ps) = ps :=
  decodeStream_garbage_frames ps bodies hb hP

/-- C4 witness: the spec scenario `"JUNK\n" + frame("A") + frame("B")`
decodes to `["A", "B"]`. -/
theorem c4_garbage_tolerance_witness :
    decodeStream (garbageBytes [[74, 85, 78, 75]] ++ framesBytes [[65], [66]]) =
      [[65], [66]] :=
  c4_garbage_tolerance [[74, 85, 78, 75]] [[65], [66]] (by decide) (by decide)

/-- C5: a declared positive `Content-Length` n followed by fewer than n
bytes and end-of-stream makes `read_packet` return the clean
end-of-stream signal (`None`, not an exception), and the reader loop
exits delivering no payload at all. -/
theorem c5_truncation (n : Nat) (body : List Nat) (hn : 0 < n)
    (hlen : body.length < n) :
    readPacket (mkRawHeader (natDigits n) ++ body) = some ReadResult.eof ∧
    decodeStream (mkRawHeader (natDigits n) ++ body) = [] := by
  have hrp : readPacket (mkRawHeader (natDigits n) ++ body) = some .eof := by
    rw [readPacket_eq_go
      (f := (body.length + (mkRawHeader (natDigits n)).length) + 1 + 1)
      (by rw [List.length_append]; omega)]
    rw [readPacketGo_lenvalue (digits_no_lf n) (digits_ascii n)
      (by rw [pyStrip_digits]; exact natDigits_ne_nil n)
      (by rw [pyStrip_digits]; exact pyInt_natDigits n) body [] _]
    rw [readBody_short hn hlen]
  exact ⟨hrp, by simp [decodeStream, decodeLoop, hrp]⟩

/-- C5 witness: `Content-Length: 2` followed by the single byte `A`. -/
theorem c5_truncation_witness :
    readPacket (mkRawHeader (natDigits 2) ++ [65]) = some ReadResult.eof ∧
    decodeStream (mkRawHeader (natDigits 2) ++ [65]) = [] :=
  c5_truncation 2 [65] (by decide) (by decide)

/-- C6: `_check_redis_connection` never raises (it always returns a
state); a successful ping sets `MEMORY_ENABLED = True`, any failure sets
`MEMORY_ENABLED = False` and `redis_client = None`; and whenever
`MEMORY_ENABLED` is false or `redis_client` is `None`, the store-gated
tools `set_memory` and `get_memory` fail with the uniform error
"Redis memory is not enabled." before touching the store. -/
theorem c6_probe_and_gating :
    (∀ (ping : Except String Unit) (st : ServerState),
      ∃ st2, checkRedisConnection ping st = .ok st2) ∧
    (∀ (u : Unit) (st : ServerState),
      checkRedisConnection (.ok u) st = .ok ⟨true, st.redisClient⟩) ∧
    (∀ (e : String) (st : ServerState),
      checkRedisConnection (.error e) st = .ok ⟨false, none⟩) ∧
    (∀ (st : ServerState) (store : List (String × String)) (k v : String),
      st.memoryEnabled = false ∨ st.redisClient = none →
        set_memory st store k v = .error "Redis memory is not enabled." ∧
        get_memory st store k = .error "Redis memory is not enabled.") := by
  refine ⟨?_, ?_, ?_, ?_⟩
  · intro ping st
    cases ping with
    | ok u => exact ⟨⟨true, st.redisClient⟩, rfl⟩
    | error e => exact ⟨⟨false, none⟩, rfl⟩
  · intro u st; rfl
  · intro e st; rfl
  · intro st store k v h
    constructor
    · unfold set_memory
      rw [if_pos h]
    · unfold get_memory
      rw [if_pos h]

/-- C6 witness: a refused connection disables the store, after which
`set_memory` fails with the uniform error. -/
theorem c6_probe_and_gating_witness :
    checkRedisConnection (.error "connection refused") ⟨true, some ()⟩ =
      .ok ⟨false, none⟩ ∧
    set_memory ⟨false, none⟩ [] "k" "v" =
      .error "Redis memory is not enabled." := by
  refine ⟨c6_probe_and_gating.2.2.1 "connection refused" ⟨true, some ()⟩, ?_⟩
  exact (c6_probe_and_gating.2.2.2 ⟨false, none⟩ [] "k" "v" (Or.inl rfl)).1

/-- C8: once `_embed_model` holds a handle, every call returns that same
handle with zero further constructor invocations; a run of n+1 calls
starting from the unset state with a succeeding constructor yields the
same handle every time and exactly one constructor invocation in total. -/
theorem c8_ready_idempotent (h n : Nat) :
    callSeq (.ok h) (n + 1) none =
      (List.replicate (n + 1) (EmbedResult.ok h), some h, 1) ∧
    (∀ (ctor : CtorOutcome) (m : Nat),
      callSeq ctor m (some h) = (List.replicate m (EmbedResult.ok h), some h, 0)) := by
  constructor
  · simp [callSeq, getEmbedModel, callSeq_ready, List.replicate_succ]
  · intro ctor m
    exact callSeq_ready ctor h m

/-- C9: a non-timeout exception from the constructor propagates
immediately out of `_get_embed_model`: exactly one constructor
invocation, no retry, no backoff sleep, the global left unset. -/
theorem c9_nontimeout_propagates :
    getEmbedModel (.raise false) none = ⟨.raised false, none, 1, []⟩ := rfl

end MCPServer
